import Mathlib

/-!
A shallow embedding of the core of jquery.piechart.js (v1.0): percentage
normalization and slice geometry from PieChart.prototype.initPieces, the
construction order of PieChart.prototype.init, the legend dictionary built by
the Legend constructor, the pixel color-key computation of rgbToHex, and the
two hover handlers (onhover / onmouseleave).  JS numbers are modelled as
rationals, thrown JS strings as Except.error, and the DOM side effects of the
hover handlers as explicit effect lists.
-/

namespace PieChartJS

/-- Angular span of one piece, as fractions of a full turn: the fields start
and end of the radians object built at lines 165-168 of the source.  The end
field is named stop here because end is a Lean keyword. -/
structure Span where
  start : ℚ
  stop : ℚ
  deriving DecidableEq, Repr

/-- One legend entry: the value stored into this.item at lines 351-354.  idx
is the loop index i, standing in for the identity of the fresh label DOM node
created in that iteration (two entries are the same JS object exactly when
they come from the same iteration), and label is the text labels[i]. -/
structure LegendEntry where
  idx : ℕ
  label : String
  deriving DecidableEq, Repr

/-- One RGBA pixel as returned by getImageData at line 207; channels 0-255. -/
structure Pixel where
  r : ℕ
  g : ℕ
  b : ℕ
  a : ℕ
  deriving DecidableEq, Repr

/-- The side effects the hover handlers emit: PieChart.clearEffects and
PieChart.addEffects (lines 249-261), recorded abstractly. -/
inductive Effect where
  | clear (e : LegendEntry)
  | add (e : LegendEntry) (hex : String)
  deriving DecidableEq, Repr

/-- Decidable equality for Except values, used to evaluate the embedded
functions on concrete inputs. -/
instance exceptDecEq {ε : Type} {α : Type} [DecidableEq ε] [DecidableEq α] :
    DecidableEq (Except ε α) := fun a b =>
  match a, b with
  | Except.error e, Except.error f =>
    if h : e = f then Decidable.isTrue (by rw [h])
    else Decidable.isFalse (fun hc => h (Except.error.inj hc))
  | Except.ok x, Except.ok y =>
    if h : x = y then Decidable.isTrue (by rw [h])
    else Decidable.isFalse (fun hc => h (Except.ok.inj hc))
  | Except.error _, Except.ok _ => Decidable.isFalse (fun hc => Except.noConfusion hc)
  | Except.ok _, Except.error _ => Decidable.isFalse (fun hc => Except.noConfusion hc)

/-- Line 142: the running-total test percentages[percentages.length-1] === 100. -/
def isCumulative (ps : List ℚ) : Bool := decide (ps.getLast? = some 100)

/-- The monotonicity check the conversion loop performs step by step (line
145: never prevNum > perc), against a given previous total; total[-1] = 0 at
the top call. -/
def monotoneFrom : ℚ → List ℚ → Bool
  | _, [] => true
  | prev, x :: rest => decide (prev ≤ x) && monotoneFrom x rest

/-- Lines 143-150: the conversion loop.  prevNum is the previous original
total; the JS string "Invalid percentage values" is thrown when
prevNum > perc.  The returned list is the sequence of values the loop writes
back into the caller's percentages array. -/
def convertCumulative : ℚ → List ℚ → Except String (List ℚ)
  | _, [] => Except.ok []
  | prevNum, perc :: rest =>
    if prevNum > perc then Except.error "Invalid percentage values"
    else
      match convertCumulative perc rest with
      | Except.error e => Except.error e
      | Except.ok tail => Except.ok ((perc - prevNum) :: tail)

/-- Successive differences against the given previous total (total[-1] = 0 at
the top call): the mathematical content of the conversion loop, as a total
function with no throw. -/
def diffsFrom : ℚ → List ℚ → List ℚ
  | _, [] => []
  | prev, x :: rest => (x - prev) :: diffsFrom x rest

/-- The share list the source works with after the optional conversion. -/
def effectiveShares (ps : List ℚ) : List ℚ :=
  if isCumulative ps then diffsFrom 0 ps else ps

/-- Lines 141-161 of initPieces: the percentage conversion and the sum check.
On success the result is the final contents of options.percentages.  Note the
source converts in place: line 148 assigns into the very array the caller
passed (options.percentages aliases the local variable percentages), so on the
cumulative path the caller's array ends up holding exactly this result. -/
def normalize (ps : List ℚ) : Except String (List ℚ) :=
  match (if isCumulative ps then convertCumulative 0 ps else Except.ok ps) with
  | Except.error e => Except.error e
  | Except.ok shares =>
    if shares.sum ≠ 100 then Except.error "Invalid percentage values"
    else Except.ok shares

/-- Lines 163-175: the radians generation loop; prevPos is the running
fraction advanced by percentages[i]/100 at each step. -/
def toSpansAux : ℚ → List ℚ → List Span
  | _, [] => []
  | prevPos, perc :: rest =>
    Span.mk prevPos (prevPos + perc / 100) :: toSpansAux (prevPos + perc / 100) rest

/-- The spans of an accepted share list, starting at running fraction 0. -/
def toSpans (shares : List ℚ) : List Span := toSpansAux 0 shares

/-- Lines 128-175 of initPieces: the colors check at line 137 (thrown first),
then the percentage validation, then the span generation. -/
def initPieces (colors : List String) (ps : List ℚ) : Except String (List Span) :=
  if colors.length < ps.length then Except.error "Not enough colors given."
  else
    match normalize ps with
    | Except.error e => Except.error e
    | Except.ok shares => Except.ok (toSpans shares)

/-- The chart fragments init inserts into the container. -/
inductive RenderedPart where
  | canvas
  | legend
  | header
  | pieces
  deriving DecidableEq, Repr

/-- Lines 98-122 of init, as the list of parts inserted into the container in
creation order, together with the thrown message if any: the canvas element is
appended at line 103, the legend is built when showLegend is set (lines
112-114), the header is built at line 115, and only then does initPieces run
(line 116); a throw there leaves everything already inserted in place, and the
pieces are only drawn (display, line 79) when init returned normally. -/
def initChart (showLegend : Bool) (colors : List String) (ps : List ℚ) :
    List RenderedPart × Option String :=
  let parts :=
    RenderedPart.canvas :: (if showLegend then [RenderedPart.legend] else []) ++ [RenderedPart.header]
  match initPieces colors ps with
  | Except.error e => (parts, some e)
  | Except.ok _ => (parts ++ [RenderedPart.pieces], none)

/-- JS String.prototype.toLowerCase on the ASCII color strings used here
(line 351 keys the legend dictionary by options.colors[i].toLowerCase()). -/
def jsToLower (s : String) : String := String.mk (s.data.map Char.toLower)

/-- Hex digit characters as produced by JS Number.prototype.toString(16):
0-9 then the lowercase letters a-f. -/
def hexDigitChar (n : ℕ) : Char :=
  if n < 10 then Char.ofNat (48 + n) else Char.ofNat (87 + n)

/-- JS Number.prototype.toString(16) on a natural number below 16^6: most
significant digit first, a single digit for n < 16.  The fuel argument only
bounds the digit count; six digits (fuel 5) are exact on the whole domain of
use, because rgbToHex range-checks every channel to 0-255 before calling, so
its argument is a 24-bit value. -/
def natToHexAux : ℕ → ℕ → List Char → List Char
  | 0, n, acc => hexDigitChar (n % 16) :: acc
  | fuel + 1, n, acc =>
    if n < 16 then hexDigitChar n :: acc
    else natToHexAux fuel (n / 16) (hexDigitChar (n % 16) :: acc)

def natToHex (n : ℕ) : String := String.mk (natToHexAux 5 n [])

/-- Lines 358-363: rgbToHex, including the thrown "Invalid color component"
when a channel exceeds 255; (r << 16) | (g << 8) | b on in-range channels is
r * 65536 + g * 256 + b. -/
def rgbToHex (r g b : ℕ) : Except String String :=
  if r > 255 ∨ g > 255 ∨ b > 255 then Except.error "Invalid color component"
  else Except.ok (natToHex (r * 65536 + g * 256 + b))

/-- Line 208: the color key of a pixel is a hash sign followed by the last six
characters of '000000' concatenated with the hex digits (the slice(-6) zero
padding). -/
def padKey (hexDigits : String) : String :=
  let s := "000000" ++ hexDigits
  "#" ++ String.mk (s.data.drop (s.data.length - 6))

/-- The full key computation of line 208, for one read-back pixel. -/
def pixelHexKey (r g b : ℕ) : Except String String :=
  match rgbToHex r g b with
  | Except.error e => Except.error e
  | Except.ok h => Except.ok (padKey h)

/-- Lines 329-355: the legend's item dictionary as the list of bindings the
loop writes, in loop order.  For each i below labels.length the key is
options.colors[i].toLowerCase() and the value records the fresh label node of
that iteration (by its index) together with the label text. -/
def legendItem (colors labels : List String) : List (String × LegendEntry) :=
  (List.range labels.length).map fun i =>
    (jsToLower (colors.getD i ""), LegendEntry.mk i (labels.getD i ""))

/-- Reading a JS object property written by a sequence of assignments: the
binding written last wins. -/
def lastLookup : List (String × LegendEntry) → String → Option LegendEntry
  | [], _ => none
  | kv :: rest, key =>
    match lastLookup rest key with
    | some r => some r
    | none => if kv.1 = key then some kv.2 else none

/-- The read this.legend.item[hex] of line 210, against a built legend. -/
def legendLookup (colors labels : List String) (key : String) : Option LegendEntry :=
  lastLookup (legendItem colors labels) key

/-- Lines 198-228: the mousemove handler.  The legend argument is none when
showLegend was false (initLegend never ran, lines 112-114), in which case the
property read piechart.legend.item throws a TypeError; prev is
piechart.prevPiece, with the empty string modelled as none.  The result is the
new prevPiece together with the effect calls made, or the thrown error.  The
hex key is computed first (lines 207-208), before the alpha test, exactly as
in the source; the alpha test short-circuits the legend read (line 210). -/
def onhover (legend : Option (List (String × LegendEntry))) (prev : Option LegendEntry)
    (p : Pixel) : Except String (Option LegendEntry × List Effect) :=
  match pixelHexKey p.r p.g p.b with
  | Except.error e => Except.error e
  | Except.ok hexKey =>
    if p.a ≠ 0 then
      match legend with
      | none => Except.error "TypeError"
      | some item =>
        match lastLookup item hexKey with
        | some curr =>
          if prev ≠ some curr then
            Except.ok (some curr,
              (match prev with
               | some pv => [Effect.clear pv]
               | none => []) ++ [Effect.add curr hexKey])
          else Except.ok (some curr, [])
        | none =>
          match prev with
          | some pv => Except.ok (none, [Effect.clear pv])
          | none => Except.ok (none, [])
    else
      match prev with
      | some pv => Except.ok (none, [Effect.clear pv])
      | none => Except.ok (none, [])

/-- Number of addEffects calls in an effect list. -/
def countAdd (effs : List Effect) : ℕ :=
  effs.countP fun e =>
    match e with
    | Effect.add _ _ => true
    | _ => false

/-- Lines 236-243: the mouseleave handler.  clearEffects is called when
prevPiece is nonempty, but prevPiece itself is never reassigned: the trailing
assignment item = '' inside clearEffects (line 260) only rebinds that
function's local parameter, so the handler returns with prevPiece unchanged. -/
def onmouseleave (prev : Option LegendEntry) : Option LegendEntry × List Effect :=
  match prev with
  | some pv => (some pv, [Effect.clear pv])
  | none => (none, [])

theorem convertCumulative_of_monotone (ps : List ℚ) :
    ∀ prev : ℚ, monotoneFrom prev ps = true →
      convertCumulative prev ps = Except.ok (diffsFrom prev ps) := by
  induction ps with
  | nil => intro prev _; rfl
  | cons x rest ih =>
    intro prev h
    simp only [monotoneFrom, Bool.and_eq_true, decide_eq_true_eq] at h
    simp only [convertCumulative, diffsFrom]
    rw [if_neg (not_lt.mpr h.1), ih x h.2]

theorem convertCumulative_of_not_monotone (ps : List ℚ) :
    ∀ prev : ℚ, monotoneFrom prev ps = false →
      convertCumulative prev ps = Except.error "Invalid percentage values" := by
  induction ps with
  | nil => intro prev h; simp [monotoneFrom] at h
  | cons x rest ih =>
    intro prev h
    simp only [monotoneFrom] at h
    by_cases hpx : x < prev
    · simp only [convertCumulative]
      rw [if_pos hpx]
    · have hle : prev ≤ x := not_lt.mp hpx
      rw [decide_eq_true hle, Bool.true_and] at h
      simp only [convertCumulative]
      rw [if_neg hpx, ih x h]

theorem diffsFrom_sum (ps : List ℚ) :
    ∀ prev : ℚ, (diffsFrom prev ps).sum = ps.getLastD prev - prev := by
  induction ps with
  | nil => intro prev; simp [diffsFrom]
  | cons x rest ih =>
    intro prev
    simp only [diffsFrom, List.sum_cons, ih x, List.getLastD_cons]
    ring

theorem diffsFrom_length (ps : List ℚ) :
    ∀ prev : ℚ, (diffsFrom prev ps).length = ps.length := by
  induction ps with
  | nil => intro _; rfl
  | cons x rest ih => intro prev; simp [diffsFrom, ih x]

theorem effectiveShares_of_cumulative (ps : List ℚ) (h : isCumulative ps = true) :
    effectiveShares ps = diffsFrom 0 ps := by
  unfold effectiveShares
  rw [if_pos h]

theorem effectiveShares_of_not_cumulative (ps : List ℚ) (h : isCumulative ps = false) :
    effectiveShares ps = ps := by
  unfold effectiveShares
  rw [if_neg (by rw [h]; exact Bool.false_ne_true)]

theorem effectiveShares_length (ps : List ℚ) :
    (effectiveShares ps).length = ps.length := by
  unfold effectiveShares
  by_cases h : isCumulative ps = true
  · rw [if_pos h, diffsFrom_length]
  · rw [if_neg h]

theorem normalize_eq (ps : List ℚ) :
    normalize ps =
      if isCumulative ps = true ∧ monotoneFrom 0 ps = false then
        Except.error "Invalid percentage values"
      else if (effectiveShares ps).sum ≠ 100 then
        Except.error "Invalid percentage values"
      else Except.ok (effectiveShares ps) := by
  unfold normalize
  by_cases hc : isCumulative ps = true
  · rw [if_pos hc, effectiveShares_of_cumulative ps hc]
    by_cases hm : monotoneFrom 0 ps = false
    · rw [convertCumulative_of_not_monotone ps 0 hm, if_pos ⟨hc, hm⟩]
    · have hm' : monotoneFrom 0 ps = true := by simpa using hm
      rw [convertCumulative_of_monotone ps 0 hm', if_neg (by simp [hm'])]
  · have hc' : isCumulative ps = false := by simpa using hc
    rw [if_neg hc, if_neg (by simp [hc']), effectiveShares_of_not_cumulative ps hc']

theorem normalize_ok_props (ps shares : List ℚ) (h : normalize ps = Except.ok shares) :
    shares = effectiveShares ps ∧ shares.sum = 100 ∧ shares.length = ps.length := by
  rw [normalize_eq] at h
  by_cases h1 : isCumulative ps = true ∧ monotoneFrom 0 ps = false
  · rw [if_pos h1] at h
    exact absurd h (by simp)
  · rw [if_neg h1] at h
    by_cases h2 : (effectiveShares ps).sum ≠ 100
    · rw [if_pos h2] at h
      exact absurd h (by simp)
    · rw [if_neg h2] at h
      have hs : shares = effectiveShares ps := (Except.ok.inj h).symm
      refine ⟨hs, ?_, ?_⟩
      · rw [hs]; exact not_ne_iff.mp h2
      · rw [hs, effectiveShares_length]

theorem sum_take_succ_getD (l : List ℚ) :
    ∀ i : ℕ, i < l.length → (l.take (i + 1)).sum = (l.take i).sum + l.getD i 0 := by
  induction l with
  | nil => intro i h; simp at h
  | cons x rest ih =>
    intro i h
    cases i with
    | zero => simp
    | succ j =>
      have hj : j < rest.length := by simpa using h
      simp only [List.take_succ_cons, List.sum_cons, List.getD_cons_succ, ih j hj]
      ring

theorem toSpansAux_length (shares : List ℚ) :
    ∀ pos : ℚ, (toSpansAux pos shares).length = shares.length := by
  induction shares with
  | nil => intro _; rfl
  | cons x rest ih => intro pos; simp [toSpansAux, ih]

theorem toSpansAux_getD (shares : List ℚ) :
    ∀ (pos : ℚ) (i : ℕ), i < shares.length →
      (toSpansAux pos shares).getD i (Span.mk 0 0) =
        Span.mk (pos + (shares.take i).sum / 100) (pos + (shares.take (i + 1)).sum / 100) := by
  induction shares with
  | nil => intro pos i h; simp at h
  | cons x rest ih =>
    intro pos i h
    cases i with
    | zero =>
      simp only [toSpansAux, List.getD_cons_zero, List.take_zero, List.take_succ_cons,
        List.take_zero, List.sum_nil, List.sum_cons]
      congr 1 <;> ring
    | succ j =>
      have hj : j < rest.length := by simpa using h
      simp only [toSpansAux, List.getD_cons_succ, List.take_succ_cons, List.sum_cons,
        ih (pos + x / 100) j hj]
      congr 1 <;> ring

theorem lastLookup_append (l₁ l₂ : List (String × LegendEntry)) (key : String) :
    lastLookup (l₁ ++ l₂) key =
      match lastLookup l₂ key with
      | some v => some v
      | none => lastLookup l₁ key := by
  induction l₁ with
  | nil =>
    rw [List.nil_append]
    cases lastLookup l₂ key <;> rfl
  | cons kv rest ih =>
    have hstep : lastLookup ((kv :: rest) ++ l₂) key =
        match lastLookup (rest ++ l₂) key with
        | some r => some r
        | none => if kv.1 = key then some kv.2 else none := rfl
    rw [hstep, ih]
    cases lastLookup l₂ key <;> rfl

theorem lastLookup_range_map (f : ℕ → String × LegendEntry) (key : String) :
    ∀ n i : ℕ, i < n → (f i).1 = key → (∀ j, j < n → (f j).1 = key → j = i) →
      lastLookup ((List.range n).map f) key = some (f i).2 := by
  intro n
  induction n with
  | zero => intro i h; omega
  | succ m ih =>
    intro i hi hkey huniq
    rw [List.range_succ, List.map_append, lastLookup_append]
    by_cases him : i = m
    · subst him
      simp [lastLookup, hkey]
    · have hm : ¬ (f m).1 = key := fun hk => him (huniq m (Nat.lt_succ_self m) hk).symm
      have hsingle : lastLookup (List.map f [m]) key = none := by
        simp [lastLookup, hm]
      rw [hsingle]
      exact ih i (by omega) hkey (fun j hj hk => huniq j (by omega) hk)

theorem lastLookup_of_mem_keys (item : List (String × LegendEntry)) (key : String)
    (h : key ∈ item.map Prod.fst) : lastLookup item key ≠ none := by
  induction item with
  | nil => simp at h
  | cons kv rest ih =>
    simp only [List.map_cons, List.mem_cons] at h
    simp only [lastLookup]
    cases hr : lastLookup rest key with
    | some r => simp
    | none =>
      rcases h with h | h
      · rw [if_pos h.symm]
        simp
      · exact absurd hr (ih h)

/-- C6: when the last element equals 100 the sequence is treated as a running
total: monotone inputs are converted to independent shares by successive
differences against total[-1] = 0 (their telescoped sum is then exactly 100,
so they pass the sum check), and any non-monotone running total is rejected
with the InvalidPercentageError string; together with the claim's concrete
instances [75, 100], [25, 75, 100] and the non-monotone [75, 50, 100]. -/
theorem normalize_cumulative_diffs :
    (∀ ps : List ℚ, ps.getLast? = some 100 →
      (monotoneFrom 0 ps = true → normalize ps = Except.ok (diffsFrom 0 ps)) ∧
      (monotoneFrom 0 ps = false →
        normalize ps = Except.error "Invalid percentage values")) ∧
    normalize [75, 100] = Except.ok [75, 25] ∧
    normalize [25, 75, 100] = Except.ok [25, 50, 25] ∧
    normalize [75, 50, 100] = Except.error "Invalid percentage values" := by
  refine ⟨?_, ?_, ?_, by decide⟩
  · intro ps hlast
    have hc : isCumulative ps = true := by simp [isCumulative, hlast]
    constructor
    · intro hm
      unfold normalize
      rw [if_pos hc, convertCumulative_of_monotone ps 0 hm]
      have hsum : (diffsFrom 0 ps).sum = 100 := by
        rw [diffsFrom_sum, List.getLastD_eq_getLast?, hlast]
        norm_num
      simp [hsum]
    · intro hm
      unfold normalize
      rw [if_pos hc, convertCumulative_of_not_monotone ps 0 hm]
  · norm_num [normalize, isCumulative, convertCumulative]
  · norm_num [normalize, isCumulative, convertCumulative]

theorem normalize_cumulative_diffs_witness :
    normalize [75, 100] = Except.ok (diffsFrom 0 [75, 100]) :=
  (normalize_cumulative_diffs.1 [75, 100] (by decide)).1 (by decide)

/-- C7 counterexample: the running total [75, 50, 100] is rejected for
non-monotonicity even though its successive differences sum to exactly 100,
so failure is not equivalent to the converted sum differing from 100. -/
theorem normalize_error_despite_sum100 :
    normalize [75, 50, 100] = Except.error "Invalid percentage values" ∧
    (effectiveShares [75, 50, 100]).sum = 100 := by
  constructor
  · decide
  · rw [effectiveShares_of_cumulative _ (by decide)]
    norm_num [diffsFrom]

/-- C7 amended: normalize rejects exactly the running totals that are
non-monotone plus every input whose effective shares do not sum to exactly
100; each accepted input yields precisely the positional conversion of the
input (order preserved), whose sum is exactly 100 and whose length matches
the input's. -/
theorem normalize_accept_characterization (ps : List ℚ) :
    ((∃ msg, normalize ps = Except.error msg) ↔
      (isCumulative ps = true ∧ monotoneFrom 0 ps = false) ∨
        (effectiveShares ps).sum ≠ 100) ∧
    ∀ shares, normalize ps = Except.ok shares →
      shares = effectiveShares ps ∧ shares.sum = 100 ∧ shares.length = ps.length := by
  refine ⟨?_, fun shares h => normalize_ok_props ps shares h⟩
  rw [normalize_eq]
  by_cases h1 : isCumulative ps = true ∧ monotoneFrom 0 ps = false
  · rw [if_pos h1]
    simp [h1]
  · rw [if_neg h1]
    by_cases h2 : (effectiveShares ps).sum ≠ 100
    · rw [if_pos h2]
      simp [h1, h2]
    · rw [if_neg h2]
      simp [h1, h2]

theorem normalize_accept_characterization_witness :
    ([75, 25] : List ℚ) = effectiveShares [75, 25] ∧
      ([75, 25] : List ℚ).sum = 100 ∧
      ([75, 25] : List ℚ).length = ([75, 25] : List ℚ).length :=
  (normalize_accept_characterization [75, 25]).2 [75, 25]
    (by norm_num [normalize, isCumulative])

/-- C5 counterexample: for the cumulative input [75, 100] the conversion loop
writes the shares [75, 25] into the caller's array (line 148 assigns through
the alias that options.percentages is), so construction does not leave the
caller-supplied sequence unchanged. -/
theorem normalize_mutates_cumulative :
    normalize [75, 100] = Except.ok [75, 25] ∧ ([75, 25] : List ℚ) ≠ [75, 100] := by
  constructor
  · norm_num [normalize, isCumulative, convertCumulative]
  · decide

/-- C5 amended: the normalization step is in place, not pure: on the
cumulative path (last element 100) the caller's array ends up holding the
successive differences, and only on the non-cumulative path does it keep the
values the caller supplied. -/
theorem normalize_mutation_characterization (ps shares : List ℚ)
    (h : normalize ps = Except.ok shares) :
    (isCumulative ps = false → shares = ps) ∧
    (isCumulative ps = true → shares = diffsFrom 0 ps) := by
  have hp := (normalize_ok_props ps shares h).1
  constructor
  · intro hc
    rw [hp, effectiveShares_of_not_cumulative ps hc]
  · intro hc
    rw [hp, effectiveShares_of_cumulative ps hc]

theorem normalize_mutation_characterization_witness :
    ([75, 25] : List ℚ) = diffsFrom 0 [75, 100] :=
  (normalize_mutation_characterization [75, 100] [75, 25]
    (by norm_num [normalize, isCumulative, convertCumulative])).2 (by decide)

/-- C8: for every accepted share list the spans are contiguous and cover
[0, 1] exactly: one span per share, the first starts at 0, each span ends
where the next begins, the last ends at 1, and every span sits at the
running-fraction offset with width share i / 100; together with the claim's
concrete instance toSpans [75, 25]. -/
theorem toSpans_contiguous (ps shares : List ℚ) (hn : normalize ps = Except.ok shares) :
    (toSpans shares).length = shares.length ∧
    shares ≠ [] ∧
    ((toSpans shares).getD 0 (Span.mk 0 0)).start = 0 ∧
    (∀ i, i + 1 < (toSpans shares).length →
      ((toSpans shares).getD i (Span.mk 0 0)).stop =
        ((toSpans shares).getD (i + 1) (Span.mk 0 0)).start) ∧
    ((toSpans shares).getD ((toSpans shares).length - 1) (Span.mk 0 0)).stop = 1 ∧
    (∀ i, i < shares.length →
      (toSpans shares).getD i (Span.mk 0 0) =
        Span.mk ((shares.take i).sum / 100)
          ((shares.take i).sum / 100 + shares.getD i 0 / 100)) ∧
    toSpans [75, 25] = [Span.mk 0 (3 / 4), Span.mk (3 / 4) 1] := by
  have hsum : shares.sum = 100 := (normalize_ok_props ps shares hn).2.1
  have hne : shares ≠ [] := by
    intro h
    rw [h] at hsum
    norm_num at hsum
  have hlen : (toSpans shares).length = shares.length := toSpansAux_length shares 0
  have hpos : ∀ i, i < shares.length →
      (toSpans shares).getD i (Span.mk 0 0) =
        Span.mk ((shares.take i).sum / 100) ((shares.take (i + 1)).sum / 100) := by
    intro i hi
    rw [toSpans, toSpansAux_getD shares 0 i hi]
    congr 1 <;> ring
  have hlen0 : 0 < shares.length := List.length_pos.mpr hne
  refine ⟨hlen, hne, ?_, ?_, ?_, ?_, ?_⟩
  · rw [hpos 0 hlen0]
    simp
  · intro i hi
    rw [hlen] at hi
    rw [hpos i (by omega), hpos (i + 1) hi]
  · rw [hlen]
    have hlast : shares.length - 1 < shares.length := by omega
    rw [hpos (shares.length - 1) hlast]
    have hsucc : shares.length - 1 + 1 = shares.length := by omega
    rw [hsucc, List.take_length, hsum]
    norm_num
  · intro i hi
    rw [hpos i hi, sum_take_succ_getD shares i hi]
    congr 1
    ring
  · norm_num [toSpans, toSpansAux]

theorem toSpans_contiguous_witness :
    toSpans [75, 25] = [Span.mk 0 (3 / 4), Span.mk (3 / 4) 1] :=
  (toSpans_contiguous [75, 25] [75, 25] (by norm_num [normalize, isCumulative])).2.2.2.2.2.2

/-- C10: an accepted share list with a zero share at position i yields a
zero-length span at the running-fraction offset of position i, the slice is
not dropped (the span list keeps one span per share, at the same position),
and the legend dictionary still holds a binding for that slice's color key. -/
theorem zero_share_span_and_legend (ps shares : List ℚ) (colors labels : List String)
    (i : ℕ) (hn : normalize ps = Except.ok shares) (hi : i < shares.length)
    (hz : shares.getD i 0 = 0) (hil : i < labels.length) (hic : i < colors.length) :
    (toSpans shares).length = shares.length ∧
    (toSpans shares).getD i (Span.mk 0 0) =
      Span.mk ((shares.take i).sum / 100) ((shares.take i).sum / 100) ∧
    legendLookup colors labels (jsToLower (colors.getD i "")) ≠ none := by
  refine ⟨toSpansAux_length shares 0, ?_, ?_⟩
  · rw [toSpans, toSpansAux_getD shares 0 i hi, sum_take_succ_getD shares i hi, hz]
    congr 1 <;> ring
  · apply lastLookup_of_mem_keys
    unfold legendItem
    rw [List.map_map]
    exact List.mem_map.mpr ⟨i, List.mem_range.mpr hil, rfl⟩

theorem zero_share_span_and_legend_witness :
    legendLookup ["#ff0000", "#00ff00", "#0000ff"] ["a", "b", "c"]
      (jsToLower "#00ff00") ≠ none :=
  (zero_share_span_and_legend [50, 0, 50] [50, 0, 50] ["#ff0000", "#00ff00", "#0000ff"]
    ["a", "b", "c"] 1 (by norm_num [normalize, isCumulative]) (by decide) (by decide)
    (by decide) (by decide)).2.2

/-- C4 counterexample: with showLegend on, three divisions and two colors,
init throws "Not enough colors given." but the canvas, the legend and the
header have already been inserted into the container, so construction is not
atomic in the claimed sense (only the pieces are missing). -/
theorem init_not_atomic :
    initChart true ["red", "blue"] [30, 30, 40] =
      ([RenderedPart.canvas, RenderedPart.legend, RenderedPart.header],
        some "Not enough colors given.") := by decide

/-- C4 amended: whenever fewer colors than divisions are supplied, init throws
"Not enough colors given." and no pieces are created or drawn, but the canvas
element, the legend (exactly when showLegend is set) and the header are
already in the container when the throw happens. -/
theorem init_insufficient_colors (sl : Bool) (colors : List String) (ps : List ℚ)
    (h : colors.length < ps.length) :
    (initChart sl colors ps).2 = some "Not enough colors given." ∧
    RenderedPart.pieces ∉ (initChart sl colors ps).1 ∧
    RenderedPart.header ∈ (initChart sl colors ps).1 ∧
    (sl = true → RenderedPart.legend ∈ (initChart sl colors ps).1) := by
  unfold initChart initPieces
  rw [if_pos h]
  cases sl <;> simp

theorem init_insufficient_colors_witness :
    (initChart false ["#aaa", "#bbb"] [30, 30, 40]).2 = some "Not enough colors given." :=
  (init_insufficient_colors false ["#aaa", "#bbb"] [30, 30, 40] (by decide)).1

/-- C1 counterexample: a chart built with the named color "red" (which CSS
paints as rgb(255, 0, 0)) stores its legend entry under the key "red", while
the key recovered from the rendered pixel of that slice is "#ff0000"; the
round-trip lookup therefore returns none instead of the entry holding the
original label, which sits under the lowercased literal key. -/
theorem named_color_roundtrip_fails :
    pixelHexKey 255 0 0 = Except.ok "#ff0000" ∧
    legendLookup ["red"] ["apples"] "#ff0000" = none ∧
    legendLookup ["red"] ["apples"] (jsToLower "red") =
      some (LegendEntry.mk 0 "apples") := by decide

/-- C1 amended: the round-trip holds exactly for colors supplied as full
six-digit hex strings: when the lowercased supplied color at position i
equals the hash-prefixed six-digit hex key of its rendered RGB triple, and no
other supplied color lowercases to that same key, looking the pixel key up in
the legend returns the entry carrying the original label. -/
theorem legend_roundtrip_hex (colors labels : List String) (i r g b : ℕ) (key : String)
    (hil : i < labels.length)
    (hpix : pixelHexKey r g b = Except.ok key)
    (hcolor : jsToLower (colors.getD i "") = key)
    (huniq : ∀ j, j < labels.length → jsToLower (colors.getD j "") = key → j = i) :
    legendLookup colors labels key = some (LegendEntry.mk i (labels.getD i "")) := by
  unfold legendLookup legendItem
  exact lastLookup_range_map
    (fun j => (jsToLower (colors.getD j ""), LegendEntry.mk j (labels.getD j "")))
    key labels.length i hil hcolor huniq

theorem legend_roundtrip_hex_witness :
    legendLookup ["#E08E79"] ["cake"] "#e08e79" = some (LegendEntry.mk 0 "cake") :=
  legend_roundtrip_hex ["#E08E79"] ["cake"] 0 224 142 121 "#e08e79"
    (by decide) (by decide) (by decide) (by decide)

/-- C2: hover resolution failures are not always absorbed: when showLegend
was false (the default) the legend was never constructed, and as soon as a
pointer move reads a pixel with nonzero alpha the handler throws a TypeError
reading piechart.legend.item instead of transitioning to Idle.  The alpha = 0
case is absorbed only because the JS conjunction at line 210 short-circuits
before the legend read. -/
theorem onhover_noLegend_throws :
    onhover none none (Pixel.mk 1 2 3 255) = Except.error "TypeError" ∧
    onhover none none (Pixel.mk 1 2 3 0) = Except.ok (none, []) := by decide

/-- C3: onmouseleave while Highlighting clears the effects on the entry but
leaves prevPiece pointing at it, so the controller does not reach Idle and a
subsequent event still sees a current highlight; while Idle it makes no
effect calls. -/
theorem onmouseleave_keeps_state :
    onmouseleave (some (LegendEntry.mk 0 "apples")) =
      (some (LegendEntry.mk 0 "apples"), [Effect.clear (LegendEntry.mk 0 "apples")]) ∧
    onmouseleave none = (none, []) := by decide

/-- C9: hover highlighting is idempotent: starting from any state that is not
already highlighting the resolved entry, the first of two consecutive
mousemove samples resolving to that entry (nonzero alpha, pixel key bound in
the legend) emits exactly one addEffects call, and the second sample is a
no-op on both the effects and the state. -/
theorem onhover_idempotent (item : List (String × LegendEntry)) (prev : Option LegendEntry)
    (p : Pixel) (curr : LegendEntry) (key : String)
    (hpix : pixelHexKey p.r p.g p.b = Except.ok key)
    (ha : p.a ≠ 0)
    (hlook : lastLookup item key = some curr)
    (hprev : prev ≠ some curr) :
    onhover (some item) prev p =
      Except.ok (some curr,
        (match prev with
         | some pv => [Effect.clear pv]
         | none => []) ++ [Effect.add curr key]) ∧
    countAdd ((match prev with
         | some pv => [Effect.clear pv]
         | none => []) ++ [Effect.add curr key]) = 1 ∧
    onhover (some item) (some curr) p = Except.ok (some curr, []) := by
  have hsecond : onhover (some item) (some curr) p = Except.ok (some curr, []) := by
    simp [onhover, hpix, ha, hlook]
  cases prev with
  | none =>
    refine ⟨?_, by simp [countAdd], hsecond⟩
    simp [onhover, hpix, ha, hlook]
  | some pv =>
    have hne : pv ≠ curr := fun hc => hprev (by rw [hc])
    refine ⟨?_, by simp [countAdd], hsecond⟩
    simp [onhover, hpix, ha, hlook, hne]

theorem onhover_idempotent_witness :
    onhover (some [("#ff0000", LegendEntry.mk 0 "apples")])
        (some (LegendEntry.mk 0 "apples")) (Pixel.mk 255 0 0 255) =
      Except.ok (some (LegendEntry.mk 0 "apples"), []) :=
  (onhover_idempotent [("#ff0000", LegendEntry.mk 0 "apples")] none (Pixel.mk 255 0 0 255)
    (LegendEntry.mk 0 "apples") "#ff0000" (by decide) (by decide) (by decide) (by decide)).2.2

end PieChartJS
